import Mathlib

/-!
Shallow embedding of `src/main.rs` of mingyang91/lock-and-transaction.

The program is a demonstration of two fund-transfer strategies against a
Postgres store: `good_transfer` (the Strict strategy, guarded conditional
debit) and `bad_transfer` (the Relaxed strategy, read-then-write), together
with `add_account`, `account_balance_verify` and `ledger_consistency_verify`.

The database state is modelled as two tables: `accounts` as an association
list from address to an i64 balance (the primary key on `address` is the
well-formedness predicate `WF`), and `transaction` as a list of ledger
entries (the unique key on `tx_hash` is enforced by the conditional insert
itself).  Each transfer runs inside one sqlx transaction: the functions
below thread the state explicitly and return the ORIGINAL state on every
path that does not reach `tx.commit()` — in sqlx a `Transaction` dropped
without commit rolls back.  Rust's `amount as i64` cast is modelled exactly
by `asI64` (two's-complement wrap of a u64 into an i64 value).  Balances are
a Postgres `bigint` column: an UPDATE whose computed value falls outside
`[-2^63, 2^63 - 1]` raises `bigint out of range`, aborting the statement —
modelled by the `...Fails` predicates, which make the transfer return a
wrapped store error (with rollback) exactly when some row to be updated
would leave the range.
-/

namespace LockTx

/-- The value of `n as i64` in Rust for a `u64` expression `n`:
two's-complement reinterpretation of `n % 2^64`. -/
def asI64 (n : Nat) : Int :=
  if n % 2 ^ 64 < 2 ^ 63 then ((n % 2 ^ 64 : Nat) : Int)
  else ((n % 2 ^ 64 : Nat) : Int) - 2 ^ 64

/-- The error enum of `src/main.rs` (`Sqlx` carries the underlying store
error's message; the model only ever produces the sqlx `RowNotFound` case). -/
inductive Error where
  | Sqlx : String → Error
  | InsufficientFunds : String → Error
  | AccountNotFound : String → Error
  | Other : String → Error
deriving DecidableEq, Repr

instance {ε α : Type} [DecidableEq ε] [DecidableEq α] : DecidableEq (Except ε α) :=
  fun x y =>
    match x, y with
    | .ok a, .ok b =>
      if h : a = b then .isTrue (by rw [h])
      else .isFalse (by intro hh; cases hh; exact h rfl)
    | .ok _, .error _ => .isFalse (by intro hh; cases hh)
    | .error _, .ok _ => .isFalse (by intro hh; cases hh)
    | .error a, .error b =>
      if h : a = b then .isTrue (by rw [h])
      else .isFalse (by intro hh; cases hh; exact h rfl)

/-- One row of the `transaction` table. -/
structure LedgerEntry where
  tx_hash : String
  from_address : String
  to_address : String
  amount : Int
deriving DecidableEq, Repr

/-- The database state: the `accounts` table (address, balance) and the
`transaction` table. -/
structure DBState where
  accounts : List (String × Int)
  ledger : List LedgerEntry
deriving DecidableEq, Repr

/-- Whether a ledger row with this `tx_hash` exists (the unique constraint
consulted by `ON CONFLICT DO NOTHING`). -/
def hashExists (l : List LedgerEntry) (h : String) : Bool :=
  l.any (fun e => e.tx_hash = h)

/-- `INSERT INTO transaction ... ON CONFLICT DO NOTHING`: rows affected and
the new table. -/
def insertLedger (l : List LedgerEntry) (e : LedgerEntry) : Nat × List LedgerEntry :=
  if hashExists l e.tx_hash then (0, l) else (1, l ++ [e])

/-- `SELECT balance FROM accounts WHERE address = $1` (first matching row). -/
def lookupBalance (a : List (String × Int)) (addr : String) : Option Int :=
  (a.find? (fun p => p.1 = addr)).map (fun p => p.2)

/-- Rows affected by
`UPDATE accounts SET balance = balance - $1 WHERE address = $2 AND balance >= $1`. -/
def guardedDebitRows (a : List (String × Int)) (addr : String) (amt : Int) : Nat :=
  (a.filter (fun p => decide (p.1 = addr ∧ amt ≤ p.2))).length

/-- The value range of the `bigint` column `balance`. -/
def inI64 (x : Int) : Prop := -(2 ^ 63) ≤ x ∧ x ≤ 2 ^ 63 - 1

instance (x : Int) : Decidable (inI64 x) := by unfold inI64; infer_instance

/-- Whether the guarded debit UPDATE raises `bigint out of range`: some row
matched by its WHERE clause computes a balance outside the column's range. -/
def guardedDebitFails (a : List (String × Int)) (addr : String) (amt : Int) : Bool :=
  a.any (fun p => decide (p.1 = addr ∧ amt ≤ p.2) && !(decide (inI64 (p.2 - amt))))

/-- Effect of the guarded conditional debit on one row. -/
def debitRow (addr : String) (amt : Int) (p : String × Int) : String × Int :=
  if p.1 = addr ∧ amt ≤ p.2 then (p.1, p.2 - amt) else p

/-- The table after the guarded conditional debit. -/
def guardedDebitApply (a : List (String × Int)) (addr : String) (amt : Int) :
    List (String × Int) :=
  a.map (debitRow addr amt)

/-- Rows affected by `UPDATE accounts SET balance = balance + $1 WHERE address = $2`
(the unconditional adjustment used by the Relaxed strategy). -/
def adjustRows (a : List (String × Int)) (addr : String) : Nat :=
  (a.filter (fun p => decide (p.1 = addr))).length

/-- Whether the unconditional adjustment UPDATE raises `bigint out of range`:
some row with this address computes a balance outside the column's range. -/
def adjustFails (a : List (String × Int)) (addr : String) (delta : Int) : Bool :=
  a.any (fun p => decide (p.1 = addr) && !(decide (inI64 (p.2 + delta))))

/-- Effect of the unconditional adjustment on one row. -/
def adjustRow (addr : String) (delta : Int) (p : String × Int) : String × Int :=
  if p.1 = addr then (p.1, p.2 + delta) else p

/-- The table after the unconditional adjustment by `delta`. -/
def adjustApply (a : List (String × Int)) (addr : String) (delta : Int) :
    List (String × Int) :=
  a.map (adjustRow addr delta)

/-- Whether the upsert credit raises `bigint out of range`: only its
`DO UPDATE` branch computes `accounts.balance + EXCLUDED.balance`; the plain
insert stores the bound i64 value, which is always in range. -/
def upsertCreditFails (a : List (String × Int)) (addr : String) (amt : Int) : Bool :=
  if a.any (fun p => p.1 = addr) then adjustFails a addr amt else false

/-- `INSERT INTO accounts (address, balance) VALUES ($1, $2)
ON CONFLICT (address) DO UPDATE SET balance = accounts.balance + EXCLUDED.balance`:
rows affected and the new table. -/
def upsertCredit (a : List (String × Int)) (addr : String) (amt : Int) :
    Nat × List (String × Int) :=
  if a.any (fun p => p.1 = addr) then
    (adjustRows a addr, adjustApply a addr amt)
  else
    (1, a ++ [(addr, amt)])

/-- `add_account`: `INSERT INTO accounts ... ON CONFLICT DO NOTHING`, returning
the number of rows affected.  `initial` is a `u64` bound to an i64 column. -/
def add_account (s : DBState) (address : String) (initial : Nat) : Nat × DBState :=
  if s.accounts.any (fun p => p.1 = address) then (0, s)
  else (1, ⟨s.accounts ++ [(address, asI64 initial)], s.ledger⟩)

/-- The Strict strategy `good_transfer`: ledger insert first (skip on
duplicate `tx_hash`), then the guarded debit of `f`, then the upsert credit
of `t`, then commit.  Every path that returns before `tx.commit()` yields
the original state (sqlx rollback on drop). -/
def good_transfer (s : DBState) (tx_hash f t : String) (amount : Nat) :
    Except Error Nat × DBState :=
  let ins := insertLedger s.ledger ⟨tx_hash, f, t, asI64 amount⟩
  if ins.1 = 0 then
    (.ok 0, s)
  else
    let s1 : DBState := ⟨s.accounts, ins.2⟩
    if guardedDebitFails s1.accounts f (asI64 amount) then
      (.error (.Sqlx "bigint out of range"), s)
    else
      let nFrom := guardedDebitRows s1.accounts f (asI64 amount)
      if nFrom = 0 then
        (.error (.InsufficientFunds f), s)
      else
        let s2 : DBState := ⟨guardedDebitApply s1.accounts f (asI64 amount), s1.ledger⟩
        if upsertCreditFails s2.accounts t (asI64 amount) then
          (.error (.Sqlx "bigint out of range"), s)
        else
          let up := upsertCredit s2.accounts t (asI64 amount)
          if up.1 = 0 then
            (.error (.Other "Failed to update recipient account"), s)
          else
            (.ok nFrom, ⟨up.2, s2.ledger⟩)

/-- The Relaxed strategy `bad_transfer`: plain read of `f`'s balance,
application-level funds check, unconditional debit of `f`, unconditional
credit of `t`, then the conditional ledger insert, then commit.  Every path
that returns before `tx.commit()` — including the `insert_rows == 0` skip
path — yields the original state (sqlx rollback on drop). -/
def bad_transfer (s : DBState) (tx_hash f t : String) (amount : Nat) :
    Except Error Nat × DBState :=
  match lookupBalance s.accounts f with
  | none => (.error (.AccountNotFound f), s)
  | some from_balance =>
    if from_balance < asI64 amount then
      (.error (.InsufficientFunds f), s)
    else
      if adjustFails s.accounts f (-(asI64 amount)) then
        (.error (.Sqlx "bigint out of range"), s)
      else
        let a1 := adjustApply s.accounts f (-(asI64 amount))
        if adjustRows s.accounts f ≠ 1 then
          (.error (.Other "Failed to update sender account"), s)
        else
          if adjustFails a1 t (asI64 amount) then
            (.error (.Sqlx "bigint out of range"), s)
          else
            let a2 := adjustApply a1 t (asI64 amount)
            if adjustRows a1 t ≠ 1 then
              (.error (.Other "Failed to update recipient account"), s)
            else
              let ins := insertLedger s.ledger ⟨tx_hash, f, t, asI64 amount⟩
              if ins.1 = 0 then
                (.ok 0, s)
              else
                (.ok ins.1, ⟨a2, ins.2⟩)

/-- `account_balance_verify`: `fetch_one` of the stored balance; an absent
row surfaces as the sqlx `RowNotFound` error wrapped in `Error::Sqlx`. -/
def account_balance_verify (s : DBState) (address : String) : Except Error Int :=
  match lookupBalance s.accounts address with
  | some b => .ok b
  | none => .error (.Sqlx "RowNotFound")

/-- Sum of `amount` over ledger entries whose `from_address` is `addr`
(the column the verifier's SQL labels `credit`). -/
def sentBy (l : List LedgerEntry) (addr : String) : Int :=
  ((l.filter (fun e => e.from_address = addr)).map (fun e => e.amount)).sum

/-- Sum of `amount` over ledger entries whose `to_address` is `addr`
(the column the verifier's SQL labels `debit`). -/
def receivedBy (l : List LedgerEntry) (addr : String) : Int :=
  ((l.filter (fun e => e.to_address = addr)).map (fun e => e.amount)).sum

/-- `ledger_consistency_verify`: for each account row, `credit` is the sum
over entries where the account is the FROM address and `debit` the sum where
it is the TO address (exactly as the SQL aliases them), and the discrepancy
`balance - (initial + credit - debit)` is accumulated whenever it is nonzero. -/
def ledger_consistency_verify (s : DBState) (initial : Nat) : Int :=
  s.accounts.foldl
    (fun diff p =>
      let credit := sentBy s.ledger p.1
      let debit := receivedBy s.ledger p.1
      if p.2 = (initial : Int) + credit - debit then diff
      else diff + (p.2 - ((initial : Int) + credit - debit)))
    0

/-- The discrepancy formula as the SPEC words it (for comparison with the
code): per account, `credit` sums entries where the account is the
`to_address` and `debit` where it is the `from_address`, and the aggregate
is the sum of `balance - (initial + credit - debit)` over all accounts. -/
def specDiscrepancy (s : DBState) (initial : Nat) : Int :=
  (s.accounts.map
    (fun p => p.2 - ((initial : Int) + receivedBy s.ledger p.1 - sentBy s.ledger p.1))).sum

/-- The tail of `main`: verify account `addr` and report success exactly when
the returned value is `>= 0`; a verification error aborts (`expect`), modelled
as `none`. -/
def main_balance_check (s : DBState) (address : String) : Option Bool :=
  match account_balance_verify s address with
  | .ok d => some (decide (0 ≤ d))
  | .error _ => none

/-- One transfer request as issued by the concurrency driver. -/
structure Req where
  tx_hash : String
  src : String
  dst : String
  amount : Nat
deriving DecidableEq, Repr

/-- A Strict-only run: the sequential execution of a list of requests
through `good_transfer`, each in its own transaction. -/
def runStrict (s : DBState) : List Req → DBState
  | [] => s
  | r :: rs => runStrict (good_transfer s r.tx_hash r.src r.dst r.amount).2 rs

/-- Table well-formedness: `address` is a primary key, so account keys are
pairwise distinct. -/
def WF (s : DBState) : Prop := (s.accounts.map Prod.fst).Nodup

instance (s : DBState) : Decidable (WF s) := by unfold WF; infer_instance

/-- Sum of all stored balances. -/
def totalBalance (s : DBState) : Int := (s.accounts.map Prod.snd).sum

/-- Every stored balance is non-negative. -/
def allNonneg (s : DBState) : Prop := ∀ p ∈ s.accounts, 0 ≤ p.2

instance (s : DBState) : Decidable (allNonneg s) := by unfold allNonneg; infer_instance

/-- Number of ledger rows carrying a given `tx_hash`. -/
def countHash (l : List LedgerEntry) (h : String) : Nat :=
  (l.filter (fun e => e.tx_hash = h)).length

/-- Every ledger entry references existing account rows (true of every state
the program can reach: both strategies fail, or create the recipient, when a
referenced account is missing). -/
def closedLedger (s : DBState) : Prop :=
  ∀ e ∈ s.ledger,
    s.accounts.any (fun p => p.1 = e.from_address) = true ∧
    s.accounts.any (fun p => p.1 = e.to_address) = true

instance (s : DBState) : Decidable (closedLedger s) := by
  unfold closedLedger; infer_instance

/-- Per-account reconciliation in the SPEC's orientation: every stored balance
equals initial funding plus what the ledger credits it minus what it debits
it. -/
def balancedAgainst (s : DBState) (initial : Nat) : Prop :=
  ∀ p ∈ s.accounts,
    p.2 = (initial : Int) + receivedBy s.ledger p.1 - sentBy s.ledger p.1

instance (s : DBState) (initial : Nat) : Decidable (balancedAgainst s initial) := by
  unfold balancedAgainst; infer_instance

/-- A freshly seeded run start: empty ledger, every account funded with
`initial`. -/
def seeded (s : DBState) (initial : Nat) : Prop :=
  s.ledger = [] ∧ ∀ p ∈ s.accounts, p.2 = (initial : Int)

instance (s : DBState) (initial : Nat) : Decidable (seeded s initial) := by
  unfold seeded; infer_instance

/-- A state whose ledger references an address (`"x"`) that has no account
row: on it the verifier's returned value differs from the spec's formula. -/
def exC1 : DBState := ⟨[("a", 5)], [⟨"t", "x", "a", 5⟩]⟩

/-- A state whose ledger already carries hash `"h"`: the Relaxed skip path. -/
def exC2 : DBState := ⟨[("a", 10), ("b", 0)], [⟨"h", "a", "b", 3⟩]⟩

/-- An all-zero-balance state: input for the wrap-around counterexample. -/
def exC3 : DBState := ⟨[("a", 0), ("b", 0)], []⟩

/-- A state with no account `"a"`: input for the unknown-sender claim. -/
def exC6 : DBState := ⟨[("b", 5)], []⟩

/-- A generic small two-account state used to instantiate witnesses. -/
def exRun : DBState := ⟨[("a", 10), ("b", 10)], []⟩

/-! ### Basic lemmas about the cast and the row transforms -/

theorem asI64_of_lt {n : Nat} (h : n < 2 ^ 63) : asI64 n = (n : Int) := by
  have h2 : n < 2 ^ 64 := lt_trans h (by norm_num)
  unfold asI64
  rw [Nat.mod_eq_of_lt h2, if_pos h]

theorem asI64_wrap {n : Nat} (h1 : 2 ^ 63 ≤ n) (h2 : n < 2 ^ 64) :
    asI64 n = (n : Int) - 2 ^ 64 := by
  unfold asI64
  rw [Nat.mod_eq_of_lt h2, if_neg (by omega)]

theorem asI64_nonneg {n : Nat} (h : n < 2 ^ 63) : 0 ≤ asI64 n := by
  rw [asI64_of_lt h]
  exact Int.ofNat_nonneg n

theorem asI64_neg {n : Nat} (h1 : 2 ^ 63 ≤ n) (h2 : n < 2 ^ 64) : asI64 n < 0 := by
  rw [asI64_wrap h1 h2]
  have h3 : (n : Int) < (2 : Int) ^ 64 := by exact_mod_cast h2
  linarith

theorem debitRow_fst (addr : String) (amt : Int) (p : String × Int) :
    (debitRow addr amt p).1 = p.1 := by
  unfold debitRow
  split <;> rfl

theorem adjustRow_fst (addr : String) (delta : Int) (p : String × Int) :
    (adjustRow addr delta p).1 = p.1 := by
  unfold adjustRow
  split <;> rfl

theorem map_fst_guardedDebitApply (a : List (String × Int)) (addr : String) (amt : Int) :
    (guardedDebitApply a addr amt).map Prod.fst = a.map Prod.fst := by
  unfold guardedDebitApply
  rw [List.map_map]
  apply List.map_congr_left
  intro p _
  exact debitRow_fst addr amt p

theorem map_fst_adjustApply (a : List (String × Int)) (addr : String) (delta : Int) :
    (adjustApply a addr delta).map Prod.fst = a.map Prod.fst := by
  unfold adjustApply
  rw [List.map_map]
  apply List.map_congr_left
  intro p _
  exact adjustRow_fst addr delta p

/-! ### Lemmas about key-based predicates over key-preserving maps -/

theorem any_key_map (a : List (String × Int)) (φ : String × Int → String × Int)
    (hφ : ∀ p, (φ p).1 = p.1) (addr : String) :
    (a.map φ).any (fun p => p.1 = addr) = a.any (fun p => p.1 = addr) := by
  rw [List.any_map]
  congr 1
  funext p
  simp [Function.comp, hφ]

theorem adjustRows_map (a : List (String × Int)) (φ : String × Int → String × Int)
    (hφ : ∀ p, (φ p).1 = p.1) (addr : String) :
    adjustRows (a.map φ) addr = adjustRows a addr := by
  unfold adjustRows
  rw [List.filter_map, List.length_map]
  congr 1
  apply List.filter_congr
  intro p _
  simp [Function.comp, hφ]

theorem lookupBalance_map (a : List (String × Int)) (φ : String × Int → String × Int)
    (hφ : ∀ p, (φ p).1 = p.1) (addr : String) :
    lookupBalance (a.map φ) addr
      = (a.find? (fun p => p.1 = addr)).map (fun p => (φ p).2) := by
  unfold lookupBalance
  rw [List.find?_map]
  have hpred : ((fun p : String × Int => decide (p.1 = addr)) ∘ φ)
      = (fun p : String × Int => decide (p.1 = addr)) := by
    funext p
    simp [Function.comp, hφ]
  rw [hpred, Option.map_map]
  rfl

/-! ### Counting lemmas -/

theorem any_key_iff_pos (a : List (String × Int)) (addr : String) :
    a.any (fun p => p.1 = addr) = true ↔ 0 < adjustRows a addr := by
  unfold adjustRows
  rw [List.any_eq_true, List.length_pos_iff_exists_mem]
  constructor
  · rintro ⟨x, hx, hpx⟩
    exact ⟨x, List.mem_filter.mpr ⟨hx, hpx⟩⟩
  · rintro ⟨x, hx⟩
    rcases List.mem_filter.mp hx with ⟨h1, h2⟩
    exact ⟨x, h1, h2⟩

theorem guardedRows_pos_iff (a : List (String × Int)) (addr : String) (amt : Int) :
    0 < guardedDebitRows a addr amt ↔ ∃ p ∈ a, p.1 = addr ∧ amt ≤ p.2 := by
  unfold guardedDebitRows
  rw [List.length_pos_iff_exists_mem]
  constructor
  · rintro ⟨x, hx⟩
    rcases List.mem_filter.mp hx with ⟨h1, h2⟩
    rcases of_decide_eq_true h2 with ⟨hk, hg⟩
    exact ⟨x, h1, hk, hg⟩
  · rintro ⟨x, hx, hk, hg⟩
    refine ⟨x, List.mem_filter.mpr ⟨hx, ?_⟩⟩
    exact decide_eq_true ⟨hk, hg⟩

theorem guardedRows_le_adjustRows (a : List (String × Int)) (addr : String) (amt : Int) :
    guardedDebitRows a addr amt ≤ adjustRows a addr := by
  unfold guardedDebitRows adjustRows
  rw [← List.countP_eq_length_filter, ← List.countP_eq_length_filter]
  apply List.countP_mono_left
  intro p _ hp
  rcases of_decide_eq_true hp with ⟨hk, _⟩
  exact decide_eq_true hk

theorem adjustRows_eq_count (a : List (String × Int)) (addr : String) :
    adjustRows a addr = (a.map Prod.fst).count addr := by
  unfold adjustRows
  rw [List.count_eq_countP, List.countP_eq_length_filter, List.filter_map, List.length_map]
  congr 1

theorem adjustRows_le_one {a : List (String × Int)}
    (hwf : (a.map Prod.fst).Nodup) (addr : String) : adjustRows a addr ≤ 1 := by
  rw [adjustRows_eq_count]
  exact List.nodup_iff_count_le_one.mp hwf addr

theorem key_unique {a : List (String × Int)} (hwf : (a.map Prod.fst).Nodup)
    {p q : String × Int} (hp : p ∈ a) (hq : q ∈ a) (hk : p.1 = q.1) : p = q := by
  induction a with
  | nil => cases hp
  | cons x l ih =>
    simp only [List.map_cons, List.nodup_cons] at hwf
    rcases List.mem_cons.mp hp with hp1 | hp2 <;> rcases List.mem_cons.mp hq with hq1 | hq2
    · rw [hp1, hq1]
    · exfalso
      apply hwf.1
      rw [hp1] at hk
      rw [hk]
      exact List.mem_map_of_mem Prod.fst hq2
    · exfalso
      apply hwf.1
      rw [hq1] at hk
      rw [← hk]
      exact List.mem_map_of_mem Prod.fst hp2
    · exact ih hwf.2 hp2 hq2

/-! ### Sum lemmas -/

theorem sum_map_add_int {α : Type} (l : List α) (f g : α → Int) :
    (l.map (fun x => f x + g x)).sum = (l.map f).sum + (l.map g).sum := by
  induction l with
  | nil => simp
  | cons x l ih =>
    simp only [List.map_cons, List.sum_cons, ih]
    ring

theorem sum_snd_guardedDebitApply (a : List (String × Int)) (addr : String) (amt : Int) :
    ((guardedDebitApply a addr amt).map Prod.snd).sum
      = (a.map Prod.snd).sum - amt * (guardedDebitRows a addr amt : Int) := by
  induction a with
  | nil => simp [guardedDebitApply, guardedDebitRows]
  | cons p l ih =>
    unfold guardedDebitApply guardedDebitRows at *
    simp only [List.map_cons, List.sum_cons, List.filter_cons]
    by_cases h : p.1 = addr ∧ amt ≤ p.2
    · rw [if_pos (decide_eq_true h)]
      simp only [debitRow, if_pos h, List.length_cons, ih]
      push_cast
      ring
    · rw [if_neg (by simp only [decide_eq_true_eq]; exact h)]
      simp only [debitRow, if_neg h, ih]
      ring

theorem sum_snd_adjustApply (a : List (String × Int)) (addr : String) (d : Int) :
    ((adjustApply a addr d).map Prod.snd).sum
      = (a.map Prod.snd).sum + d * (adjustRows a addr : Int) := by
  induction a with
  | nil => simp [adjustApply, adjustRows]
  | cons p l ih =>
    unfold adjustApply adjustRows at *
    simp only [List.map_cons, List.sum_cons, List.filter_cons]
    by_cases h : p.1 = addr
    · rw [if_pos (decide_eq_true h)]
      simp only [adjustRow, if_pos h, List.length_cons, ih]
      push_cast
      ring
    · rw [if_neg (by simp only [decide_eq_true_eq]; exact h)]
      simp only [adjustRow, if_neg h, ih]
      ring

/-! ### Ledger decomposition lemmas -/

theorem sentBy_nil (addr : String) : sentBy [] addr = 0 := rfl

theorem receivedBy_nil (addr : String) : receivedBy [] addr = 0 := rfl

theorem sentBy_append (l : List LedgerEntry) (e : LedgerEntry) (addr : String) :
    sentBy (l ++ [e]) addr
      = sentBy l addr + (if e.from_address = addr then e.amount else 0) := by
  unfold sentBy
  rw [List.filter_append, List.map_append, List.sum_append]
  by_cases h : e.from_address = addr <;> simp [h]

theorem receivedBy_append (l : List LedgerEntry) (e : LedgerEntry) (addr : String) :
    receivedBy (l ++ [e]) addr
      = receivedBy l addr + (if e.to_address = addr then e.amount else 0) := by
  unfold receivedBy
  rw [List.filter_append, List.map_append, List.sum_append]
  by_cases h : e.to_address = addr <;> simp [h]

theorem countHash_append (l : List LedgerEntry) (e : LedgerEntry) (h : String) :
    countHash (l ++ [e]) h = countHash l h + (if e.tx_hash = h then 1 else 0) := by
  unfold countHash
  rw [List.filter_append, List.length_append]
  by_cases hh : e.tx_hash = h <;> simp [hh]

theorem countHash_eq_zero {l : List LedgerEntry} {h : String}
    (hx : hashExists l h = false) : countHash l h = 0 := by
  unfold hashExists at hx
  rw [List.any_eq_false] at hx
  unfold countHash
  rw [List.length_eq_zero, List.filter_eq_nil_iff]
  intro e he
  exact hx e he

theorem hashExists_append (l : List LedgerEntry) (e : LedgerEntry) (h : String) :
    hashExists (l ++ [e]) h = (hashExists l h || (e.tx_hash = h)) := by
  unfold hashExists
  rw [List.any_append]
  simp

/-! ### Summing ledger activity over all account rows -/

theorem sum_map_ite_key (a : List (String × Int)) (k : String) (amt : Int) :
    (a.map (fun p => if p.1 = k then amt else 0)).sum
      = amt * (adjustRows a k : Int) := by
  induction a with
  | nil => simp [adjustRows]
  | cons p l ih =>
    simp only [List.map_cons, List.sum_cons]
    unfold adjustRows at *
    rw [List.filter_cons]
    by_cases h : p.1 = k
    · rw [if_pos h, if_pos (decide_eq_true h)]
      simp only [List.length_cons, ih]
      push_cast
      ring
    · rw [if_neg h, if_neg (by simp only [decide_eq_true_eq]; exact h)]
      rw [ih]
      ring

theorem sum_sentBy_over_accounts (a : List (String × Int)) (l : List LedgerEntry) :
    (a.map (fun p => sentBy l p.1)).sum
      = (l.map (fun e => e.amount * (adjustRows a e.from_address : Int))).sum := by
  induction l with
  | nil =>
    have hz : ∀ p ∈ a, sentBy [] p.1 = (0 : Int) := fun p _ => rfl
    rw [List.map_congr_left hz]
    simp
  | cons e l ih =>
    have hdec : ∀ p : String × Int,
        sentBy (e :: l) p.1
          = (if p.1 = e.from_address then e.amount else 0) + sentBy l p.1 := by
      intro p
      unfold sentBy
      rw [List.filter_cons]
      by_cases h : e.from_address = p.1
      · rw [if_pos (decide_eq_true h), if_pos h.symm, List.map_cons, List.sum_cons]
      · rw [if_neg (by simp only [decide_eq_true_eq]; exact h),
          if_neg (fun hh => h hh.symm), zero_add]
    rw [List.map_congr_left (fun p _ => hdec p), sum_map_add_int,
      sum_map_ite_key, ih, List.map_cons, List.sum_cons]

theorem sum_receivedBy_over_accounts (a : List (String × Int)) (l : List LedgerEntry) :
    (a.map (fun p => receivedBy l p.1)).sum
      = (l.map (fun e => e.amount * (adjustRows a e.to_address : Int))).sum := by
  induction l with
  | nil =>
    have hz : ∀ p ∈ a, receivedBy [] p.1 = (0 : Int) := fun p _ => rfl
    rw [List.map_congr_left hz]
    simp
  | cons e l ih =>
    have hdec : ∀ p : String × Int,
        receivedBy (e :: l) p.1
          = (if p.1 = e.to_address then e.amount else 0) + receivedBy l p.1 := by
      intro p
      unfold receivedBy
      rw [List.filter_cons]
      by_cases h : e.to_address = p.1
      · rw [if_pos (decide_eq_true h), if_pos h.symm, List.map_cons, List.sum_cons]
      · rw [if_neg (by simp only [decide_eq_true_eq]; exact h),
          if_neg (fun hh => h hh.symm), zero_add]
    rw [List.map_congr_left (fun p _ => hdec p), sum_map_add_int,
      sum_map_ite_key, ih, List.map_cons, List.sum_cons]

/-! ### The verifier's fold -/

theorem foldl_discrepancy (l : List (String × Int)) (X : String → Int) (d : Int) :
    l.foldl (fun diff p => if p.2 = X p.1 then diff else diff + (p.2 - X p.1)) d
      = d + (l.map (fun p => p.2 - X p.1)).sum := by
  induction l generalizing d with
  | nil => simp
  | cons p l ih =>
    simp only [List.foldl_cons, List.map_cons, List.sum_cons]
    by_cases h : p.2 = X p.1
    · rw [if_pos h, ih, h]
      ring
    · rw [if_neg h, ih]
      ring

theorem verify_eq_sum (s : DBState) (initial : Nat) :
    ledger_consistency_verify s initial
      = (s.accounts.map (fun p =>
          p.2 - ((initial : Int) + sentBy s.ledger p.1 - receivedBy s.ledger p.1))).sum := by
  have h := foldl_discrepancy s.accounts
      (fun addr => (initial : Int) + sentBy s.ledger addr - receivedBy s.ledger addr) 0
  rw [zero_add] at h
  exact h

theorem sum_code_spec_diff (a : List (String × Int)) (idx : Int) (snt rcv : String → Int) :
    (a.map (fun p => p.2 - (idx + snt p.1 - rcv p.1))).sum
      = (a.map (fun p => p.2 - (idx + rcv p.1 - snt p.1))).sum
        + 2 * ((a.map (fun p => rcv p.1)).sum - (a.map (fun p => snt p.1)).sum) := by
  induction a with
  | nil => simp
  | cons p l ih =>
    simp only [List.map_cons, List.sum_cons]
    rw [ih]
    ring

/-! ### Lookup characterizations -/

theorem lookupBalance_none_iff (a : List (String × Int)) (addr : String) :
    lookupBalance a addr = none ↔ a.any (fun p => p.1 = addr) = false := by
  unfold lookupBalance
  rw [Option.map_eq_none', List.find?_eq_none, List.any_eq_false]

theorem lookupBalance_some_mem {a : List (String × Int)} {addr : String} {b : Int}
    (hl : lookupBalance a addr = some b) : ∃ p ∈ a, p.1 = addr ∧ p.2 = b := by
  unfold lookupBalance at hl
  rcases Option.map_eq_some'.mp hl with ⟨q, hq, hb⟩
  have hk := @List.find?_some (String × Int) (fun p => decide (p.1 = addr)) q a hq
  exact ⟨q, List.mem_of_find?_eq_some hq, of_decide_eq_true hk, hb⟩

theorem adjustRows_zero_of_none {a : List (String × Int)} {addr : String}
    (hl : lookupBalance a addr = none) : adjustRows a addr = 0 := by
  have hany := (lookupBalance_none_iff a addr).mp hl
  by_contra hh
  have hpos : 0 < adjustRows a addr := Nat.pos_of_ne_zero hh
  rw [← any_key_iff_pos] at hpos
  rw [hany] at hpos
  cases hpos

theorem adjustRows_pos_of_some {a : List (String × Int)} {addr : String} {b : Int}
    (hl : lookupBalance a addr = some b) : 0 < adjustRows a addr := by
  rw [← any_key_iff_pos, List.any_eq_true]
  rcases lookupBalance_some_mem hl with ⟨p, hp, hk, _⟩
  exact ⟨p, hp, decide_eq_true hk⟩

/-! ### Branch lemmas for the transfer strategies -/

theorem upsertCredit_rows_pos (a : List (String × Int)) (addr : String) (amt : Int) :
    0 < (upsertCredit a addr amt).1 := by
  unfold upsertCredit
  by_cases h : a.any (fun p => p.1 = addr) = true
  · rw [if_pos h]
    exact (any_key_iff_pos a addr).mp h
  · rw [if_neg h]
    norm_num

theorem guardedDebitFails_of_rows_zero {a : List (String × Int)} {addr : String}
    {amt : Int} (hz : guardedDebitRows a addr amt = 0) :
    guardedDebitFails a addr amt = false := by
  unfold guardedDebitFails
  rw [List.any_eq_false]
  intro p hp hc
  have h1 := (Bool.and_eq_true _ _).mp hc
  have hpos : 0 < guardedDebitRows a addr amt := by
    unfold guardedDebitRows
    rw [List.length_pos_iff_exists_mem]
    exact ⟨p, List.mem_filter.mpr ⟨hp, h1.1⟩⟩
  omega

theorem good_transfer_skip (s : DBState) (h f t : String) (a : Nat)
    (hx : hashExists s.ledger h = true) :
    good_transfer s h f t a = (.ok 0, s) := by
  unfold good_transfer insertLedger
  simp [hx]

theorem good_transfer_debit_overflow (s : DBState) (h f t : String) (a : Nat)
    (hx : hashExists s.ledger h = false)
    (hof : guardedDebitFails s.accounts f (asI64 a) = true) :
    good_transfer s h f t a = (.error (.Sqlx "bigint out of range"), s) := by
  unfold good_transfer insertLedger
  simp [hx, hof]

theorem good_transfer_insufficient (s : DBState) (h f t : String) (a : Nat)
    (hx : hashExists s.ledger h = false)
    (hz : guardedDebitRows s.accounts f (asI64 a) = 0) :
    good_transfer s h f t a = (.error (.InsufficientFunds f), s) := by
  have hnof := guardedDebitFails_of_rows_zero hz
  unfold good_transfer insertLedger
  simp [hx, hnof, hz]

theorem good_transfer_upsert_overflow (s : DBState) (h f t : String) (a : Nat)
    (hx : hashExists s.ledger h = false)
    (hnof1 : guardedDebitFails s.accounts f (asI64 a) = false)
    (hnz : guardedDebitRows s.accounts f (asI64 a) ≠ 0)
    (hof2 : upsertCreditFails (guardedDebitApply s.accounts f (asI64 a)) t
      (asI64 a) = true) :
    good_transfer s h f t a = (.error (.Sqlx "bigint out of range"), s) := by
  unfold good_transfer insertLedger
  simp [hx, hnof1, hnz, hof2]

theorem good_transfer_commit (s : DBState) (h f t : String) (a : Nat)
    (hx : hashExists s.ledger h = false)
    (hnof1 : guardedDebitFails s.accounts f (asI64 a) = false)
    (hnz : guardedDebitRows s.accounts f (asI64 a) ≠ 0)
    (hnof2 : upsertCreditFails (guardedDebitApply s.accounts f (asI64 a)) t
      (asI64 a) = false) :
    good_transfer s h f t a
      = (.ok (guardedDebitRows s.accounts f (asI64 a)),
         ⟨(upsertCredit (guardedDebitApply s.accounts f (asI64 a)) t (asI64 a)).2,
          s.ledger ++ [⟨h, f, t, asI64 a⟩]⟩) := by
  have hup := upsertCredit_rows_pos (guardedDebitApply s.accounts f (asI64 a)) t (asI64 a)
  have hup2 : (upsertCredit (guardedDebitApply s.accounts f (asI64 a)) t
      (asI64 a)).1 ≠ 0 := by omega
  unfold good_transfer insertLedger
  simp [hx, hnof1, hnz, hnof2, hup2]

theorem good_transfer_state_cases (s : DBState) (h f t : String) (a : Nat) :
    (good_transfer s h f t a).2 = s ∨
    (hashExists s.ledger h = false ∧
     guardedDebitFails s.accounts f (asI64 a) = false ∧
     guardedDebitRows s.accounts f (asI64 a) ≠ 0 ∧
     upsertCreditFails (guardedDebitApply s.accounts f (asI64 a)) t (asI64 a) = false ∧
     good_transfer s h f t a
       = (.ok (guardedDebitRows s.accounts f (asI64 a)),
          ⟨(upsertCredit (guardedDebitApply s.accounts f (asI64 a)) t (asI64 a)).2,
           s.ledger ++ [⟨h, f, t, asI64 a⟩]⟩)) := by
  by_cases hx : hashExists s.ledger h = true
  · left
    rw [good_transfer_skip s h f t a hx]
  · have hx2 := Bool.eq_false_iff.mpr hx
    by_cases hof1 : guardedDebitFails s.accounts f (asI64 a) = true
    · left
      rw [good_transfer_debit_overflow s h f t a hx2 hof1]
    · have hof1f := Bool.eq_false_iff.mpr hof1
      by_cases hz : guardedDebitRows s.accounts f (asI64 a) = 0
      · left
        rw [good_transfer_insufficient s h f t a hx2 hz]
      · by_cases hof2 : upsertCreditFails (guardedDebitApply s.accounts f (asI64 a)) t
            (asI64 a) = true
        · left
          rw [good_transfer_upsert_overflow s h f t a hx2 hof1f hz hof2]
        · right
          exact ⟨hx2, hof1f, hz, Bool.eq_false_iff.mpr hof2,
            good_transfer_commit s h f t a hx2 hof1f hz (Bool.eq_false_iff.mpr hof2)⟩

theorem good_transfer_error_state (s : DBState) (h f t : String) (a : Nat) (e : Error)
    (he : (good_transfer s h f t a).1 = .error e) :
    (good_transfer s h f t a).2 = s := by
  rcases good_transfer_state_cases s h f t a with hs | ⟨_, _, _, _, hc⟩
  · exact hs
  · rw [hc] at he
    simp at he

theorem bad_transfer_notfound (s : DBState) (h f t : String) (a : Nat)
    (hl : lookupBalance s.accounts f = none) :
    bad_transfer s h f t a = (.error (.AccountNotFound f), s) := by
  unfold bad_transfer
  rw [hl]

theorem bad_transfer_insufficient (s : DBState) (h f t : String) (a : Nat) (b : Int)
    (hl : lookupBalance s.accounts f = some b) (hb : b < asI64 a) :
    bad_transfer s h f t a = (.error (.InsufficientFunds f), s) := by
  unfold bad_transfer
  rw [hl]
  simp [hb]

theorem bad_transfer_debit_overflow (s : DBState) (h f t : String) (a : Nat) (b : Int)
    (hl : lookupBalance s.accounts f = some b) (hb : ¬ b < asI64 a)
    (hof1 : adjustFails s.accounts f (-(asI64 a)) = true) :
    bad_transfer s h f t a = (.error (.Sqlx "bigint out of range"), s) := by
  unfold bad_transfer
  rw [hl]
  simp [hb, hof1]

theorem bad_transfer_sender_fail (s : DBState) (h f t : String) (a : Nat) (b : Int)
    (hl : lookupBalance s.accounts f = some b) (hb : ¬ b < asI64 a)
    (hnof1 : adjustFails s.accounts f (-(asI64 a)) = false)
    (h1 : adjustRows s.accounts f ≠ 1) :
    bad_transfer s h f t a = (.error (.Other "Failed to update sender account"), s) := by
  unfold bad_transfer
  rw [hl]
  simp [hb, hnof1, h1]

theorem adjustRows_adjustApply (a : List (String × Int)) (k : String) (d : Int)
    (addr : String) : adjustRows (adjustApply a k d) addr = adjustRows a addr := by
  unfold adjustApply
  exact adjustRows_map a (adjustRow k d) (adjustRow_fst k d) addr

theorem bad_transfer_recipient_overflow (s : DBState) (h f t : String) (a : Nat) (b : Int)
    (hl : lookupBalance s.accounts f = some b) (hb : ¬ b < asI64 a)
    (hnof1 : adjustFails s.accounts f (-(asI64 a)) = false)
    (h1 : adjustRows s.accounts f = 1)
    (hof2 : adjustFails (adjustApply s.accounts f (-(asI64 a))) t (asI64 a) = true) :
    bad_transfer s h f t a = (.error (.Sqlx "bigint out of range"), s) := by
  unfold bad_transfer
  rw [hl]
  simp [hb, hnof1, h1, hof2]

theorem bad_transfer_recipient_fail (s : DBState) (h f t : String) (a : Nat) (b : Int)
    (hl : lookupBalance s.accounts f = some b) (hb : ¬ b < asI64 a)
    (hnof1 : adjustFails s.accounts f (-(asI64 a)) = false)
    (hnof2 : adjustFails (adjustApply s.accounts f (-(asI64 a))) t (asI64 a) = false)
    (h1 : adjustRows s.accounts f = 1) (h2 : adjustRows s.accounts t ≠ 1) :
    bad_transfer s h f t a = (.error (.Other "Failed to update recipient account"), s) := by
  unfold bad_transfer
  rw [hl]
  have h2b : adjustRows (adjustApply s.accounts f (-(asI64 a))) t ≠ 1 := by
    rw [adjustRows_adjustApply]
    exact h2
  simp [hb, hnof1, h1, hnof2, h2b]

theorem bad_transfer_skip (s : DBState) (h f t : String) (a : Nat) (b : Int)
    (hl : lookupBalance s.accounts f = some b) (hb : ¬ b < asI64 a)
    (hnof1 : adjustFails s.accounts f (-(asI64 a)) = false)
    (hnof2 : adjustFails (adjustApply s.accounts f (-(asI64 a))) t (asI64 a) = false)
    (h1 : adjustRows s.accounts f = 1) (h2 : adjustRows s.accounts t = 1)
    (hx : hashExists s.ledger h = true) :
    bad_transfer s h f t a = (.ok 0, s) := by
  unfold bad_transfer insertLedger
  rw [hl]
  have h2b : adjustRows (adjustApply s.accounts f (-(asI64 a))) t = 1 := by
    rw [adjustRows_adjustApply]
    exact h2
  simp [hb, hnof1, h1, hnof2, h2b, hx]

theorem bad_transfer_commit (s : DBState) (h f t : String) (a : Nat) (b : Int)
    (hl : lookupBalance s.accounts f = some b) (hb : ¬ b < asI64 a)
    (hnof1 : adjustFails s.accounts f (-(asI64 a)) = false)
    (hnof2 : adjustFails (adjustApply s.accounts f (-(asI64 a))) t (asI64 a) = false)
    (h1 : adjustRows s.accounts f = 1) (h2 : adjustRows s.accounts t = 1)
    (hx : hashExists s.ledger h = false) :
    bad_transfer s h f t a
      = (.ok 1, ⟨adjustApply (adjustApply s.accounts f (-(asI64 a))) t (asI64 a),
                 s.ledger ++ [⟨h, f, t, asI64 a⟩]⟩) := by
  unfold bad_transfer insertLedger
  rw [hl]
  have h2b : adjustRows (adjustApply s.accounts f (-(asI64 a))) t = 1 := by
    rw [adjustRows_adjustApply]
    exact h2
  simp [hb, hnof1, h1, hnof2, h2b, hx]

theorem bad_transfer_error_state (s : DBState) (h f t : String) (a : Nat) (e : Error)
    (he : (bad_transfer s h f t a).1 = .error e) :
    (bad_transfer s h f t a).2 = s := by
  cases hl : lookupBalance s.accounts f with
  | none => rw [bad_transfer_notfound s h f t a hl]
  | some b =>
    by_cases hb : b < asI64 a
    · rw [bad_transfer_insufficient s h f t a b hl hb]
    · by_cases hof1 : adjustFails s.accounts f (-(asI64 a)) = true
      · rw [bad_transfer_debit_overflow s h f t a b hl hb hof1]
      · have hnof1 := Bool.eq_false_iff.mpr hof1
        by_cases h1 : adjustRows s.accounts f = 1
        · by_cases hof2 : adjustFails (adjustApply s.accounts f (-(asI64 a))) t
              (asI64 a) = true
          · rw [bad_transfer_recipient_overflow s h f t a b hl hb hnof1 h1 hof2]
          · have hnof2 := Bool.eq_false_iff.mpr hof2
            by_cases h2 : adjustRows s.accounts t = 1
            · cases hx : hashExists s.ledger h with
              | false =>
                rw [bad_transfer_commit s h f t a b hl hb hnof1 hnof2 h1 h2 hx] at he
                simp at he
              | true =>
                rw [bad_transfer_skip s h f t a b hl hb hnof1 hnof2 h1 h2 hx] at he
                simp at he
            · rw [bad_transfer_recipient_fail s h f t a b hl hb hnof1 hnof2 h1 h2]
        · rw [bad_transfer_sender_fail s h f t a b hl hb hnof1 h1]

/-! ### Claim C8 -/

/-- C8: `add_account(address, initialBalance)` creates the account row exactly
when no row with that address exists and returns whether a row was newly
created (1 if created, 0 if it already existed); a duplicate address never
causes a failure and leaves the existing row's balance unchanged. -/
theorem claim8_add_account (s : DBState) (addr : String) (initial : Nat) (b : Int) :
    (lookupBalance s.accounts addr = none →
      add_account s addr initial
        = (1, ⟨s.accounts ++ [(addr, asI64 initial)], s.ledger⟩)) ∧
    (lookupBalance s.accounts addr = some b →
      add_account s addr initial = (0, s) ∧
      lookupBalance (add_account s addr initial).2.accounts addr = some b) := by
  constructor
  · intro hl
    unfold add_account
    rw [if_neg]
    rw [(lookupBalance_none_iff s.accounts addr).mp hl]
    simp
  · intro hl
    have hany : s.accounts.any (fun p => p.1 = addr) = true := by
      rw [List.any_eq_true]
      rcases lookupBalance_some_mem hl with ⟨p, hp, hk, _⟩
      exact ⟨p, hp, decide_eq_true hk⟩
    have heq : add_account s addr initial = (0, s) := by
      unfold add_account
      rw [if_pos hany]
    exact ⟨heq, by rw [heq]; exact hl⟩

/-- C8 witness: a fresh address is created with one row affected, and
re-adding an existing address affects zero rows and keeps its balance. -/
theorem claim8_add_account_witness :
    add_account exRun "c" 7 = (1, ⟨exRun.accounts ++ [("c", asI64 7)], exRun.ledger⟩) ∧
    (add_account exRun "a" 7 = (0, exRun) ∧
      lookupBalance (add_account exRun "a" 7).2.accounts "a" = some 10) :=
  ⟨(claim8_add_account exRun "c" 7 0).1 (by decide),
   (claim8_add_account exRun "a" 7 10).2 (by decide)⟩

/-! ### Claim C9 -/

/-- C9: the verification the driver actually runs after all transfers,
`account_balance_verify`, returns the raw stored balance of the single
queried account (failing with a wrapped store error when the row is absent),
not a reconciliation discrepancy; `main` therefore logs success exactly when
that one balance is `≥ 0`. -/
theorem claim9_account_balance_verify (s : DBState) (addr : String) (b : Int) :
    (lookupBalance s.accounts addr = some b →
      account_balance_verify s addr = .ok b ∧
      main_balance_check s addr = some (decide (0 ≤ b))) ∧
    (lookupBalance s.accounts addr = none →
      account_balance_verify s addr = .error (.Sqlx "RowNotFound") ∧
      main_balance_check s addr = none) := by
  constructor
  · intro hl
    have h1 : account_balance_verify s addr = .ok b := by
      unfold account_balance_verify
      rw [hl]
    refine ⟨h1, ?_⟩
    unfold main_balance_check
    rw [h1]
  · intro hl
    have h1 : account_balance_verify s addr = .error (.Sqlx "RowNotFound") := by
      unfold account_balance_verify
      rw [hl]
    refine ⟨h1, ?_⟩
    unfold main_balance_check
    rw [h1]

/-- C9 witness: on a concrete state the driver check returns the raw stored
balance (which here disagrees with any ledger reconciliation, as the ledger
is empty while the balance is 10). -/
theorem claim9_account_balance_verify_witness :
    account_balance_verify exRun "a" = .ok 10 ∧
    main_balance_check exRun "a" = some true :=
  ⟨((claim9_account_balance_verify exRun "a" 10).1 (by decide)).1,
   ((claim9_account_balance_verify exRun "a" 10).1 (by decide)).2⟩

/-! ### Claim C2 -/

/-- C2 counterexample: on `exC2` (sender read succeeds with balance 10 ≥ 3,
both unconditional updates affect one row, and the ledger already carries the
`tx_hash`), the Relaxed invocation terminates as `Skipped` — but the sender's
debit and the recipient's credit do NOT persist: the function returns before
`tx.commit()`, so the transaction rolls back and both balances are exactly
their pre-invocation values. -/
theorem claim2_counterexample :
    lookupBalance exC2.accounts "a" = some 10 ∧
    hashExists exC2.ledger "h" = true ∧
    bad_transfer exC2 "h" "a" "b" 3 = (.ok 0, exC2) ∧
    lookupBalance (bad_transfer exC2 "h" "a" "b" 3).2.accounts "a" = some 10 ∧
    lookupBalance (bad_transfer exC2 "h" "a" "b" 3).2.accounts "b" = some 0 := by
  decide

/-- C2 (amended): in the Relaxed strategy, when steps 1-4 succeed (sender
read and checked, both in-range unconditional updates applied to one row
each) and the conditional ledger insert affects zero rows because the
`tx_hash` already exists, the invocation terminates as `Skipped` — and
because this return happens before `tx.commit()`, the whole unit of work
rolls back: the sender's debit and the recipient's credit do NOT persist
and the state is unchanged. -/
theorem claim2_relaxed_skip_rolls_back (s : DBState) (h f t : String) (a : Nat) (b : Int)
    (hl : lookupBalance s.accounts f = some b)
    (hb : ¬ b < asI64 a)
    (hnof1 : adjustFails s.accounts f (-(asI64 a)) = false)
    (hnof2 : adjustFails (adjustApply s.accounts f (-(asI64 a))) t (asI64 a) = false)
    (h1 : adjustRows s.accounts f = 1)
    (h2 : adjustRows s.accounts t = 1)
    (hx : hashExists s.ledger h = true) :
    bad_transfer s h f t a = (.ok 0, s) :=
  bad_transfer_skip s h f t a b hl hb hnof1 hnof2 h1 h2 hx

/-- C2 witness: a concrete Relaxed skip leaving the state untouched. -/
theorem claim2_relaxed_skip_rolls_back_witness :
    bad_transfer exC2 "h" "a" "b" 4 = (.ok 0, exC2) :=
  claim2_relaxed_skip_rolls_back exC2 "h" "a" "b" 4 10
    (by decide) (by decide) (by decide) (by decide) (by decide) (by decide) (by decide)

/-! ### Claim C6 -/

/-- C6 counterexample: the Strict strategy applied to a sender that was never
created fails with `InsufficientFunds("a")`, not with `AccountNotFound("a")`
as the claim states for both strategies. -/
theorem claim6_counterexample :
    lookupBalance exC6.accounts "a" = none ∧
    (good_transfer exC6 "h" "a" "b" 3).1 = .error (.InsufficientFunds "a") ∧
    (good_transfer exC6 "h" "a" "b" 3).1 ≠ .error (.AccountNotFound "a") := by
  decide

/-- C6 (amended): a transfer whose `from` address was never created leaves
all balances and the ledger unchanged in both strategies, but the error
differs by strategy: Relaxed fails with `AccountNotFound(from)`, while
Strict (with a fresh `tx_hash`) fails with `InsufficientFunds(from)` because
its plain guarded `UPDATE` merely affects zero rows. -/
theorem claim6_unknown_sender (s : DBState) (h f t : String) (a : Nat)
    (hl : lookupBalance s.accounts f = none) :
    bad_transfer s h f t a = (.error (.AccountNotFound f), s) ∧
    (hashExists s.ledger h = false →
      good_transfer s h f t a = (.error (.InsufficientFunds f), s)) := by
  constructor
  · exact bad_transfer_notfound s h f t a hl
  · intro hx
    apply good_transfer_insufficient s h f t a hx
    have hle := guardedRows_le_adjustRows s.accounts f (asI64 a)
    have hz := adjustRows_zero_of_none hl
    omega

/-- C6 witness: both strategies on a concrete absent sender. -/
theorem claim6_unknown_sender_witness :
    bad_transfer exC6 "h" "a" "b" 3 = (.error (.AccountNotFound "a"), exC6) ∧
    good_transfer exC6 "h" "a" "b" 3 = (.error (.InsufficientFunds "a"), exC6) :=
  ⟨(claim6_unknown_sender exC6 "h" "a" "b" 3 (by decide)).1,
   (claim6_unknown_sender exC6 "h" "a" "b" 3 (by decide)).2 (by decide)⟩

/-! ### Claim C7 -/

/-- C7: every Transfer Protocol error aborts its entire unit of work
atomically — the post-invocation state is the pre-invocation state — for
both strategies; in particular a lone Strict transfer requesting more than
the sender's balance fails with `InsufficientFunds(from)` and changes
nothing (the step-1 ledger insert is rolled back too), and a Relaxed
transfer whose in-range updates fail at the recipient update after debiting
the sender leaves the sender's balance unchanged.  The atomicity conjuncts
cover every error, the `bigint out of range` store aborts included. -/
theorem claim7_atomic_abort :
    (∀ (s : DBState) (h f t : String) (a : Nat) (e : Error),
      (good_transfer s h f t a).1 = .error e → (good_transfer s h f t a).2 = s) ∧
    (∀ (s : DBState) (h f t : String) (a : Nat) (e : Error),
      (bad_transfer s h f t a).1 = .error e → (bad_transfer s h f t a).2 = s) ∧
    (∀ (s : DBState) (h f t : String) (a : Nat) (b : Int),
      WF s → hashExists s.ledger h = false →
      lookupBalance s.accounts f = some b → b < asI64 a →
      good_transfer s h f t a = (.error (.InsufficientFunds f), s)) ∧
    (∀ (s : DBState) (h f t : String) (a : Nat) (b : Int),
      lookupBalance s.accounts f = some b → ¬ b < asI64 a →
      adjustFails s.accounts f (-(asI64 a)) = false →
      adjustFails (adjustApply s.accounts f (-(asI64 a))) t (asI64 a) = false →
      adjustRows s.accounts f = 1 → adjustRows s.accounts t ≠ 1 →
      bad_transfer s h f t a = (.error (.Other "Failed to update recipient account"), s)) := by
  refine ⟨good_transfer_error_state, bad_transfer_error_state, ?_, bad_transfer_recipient_fail⟩
  intro s h f t a b hwf hx hl hb
  apply good_transfer_insufficient s h f t a hx
  by_contra hnz
  have hpos : 0 < guardedDebitRows s.accounts f (asI64 a) := Nat.pos_of_ne_zero hnz
  rcases (guardedRows_pos_iff s.accounts f (asI64 a)).mp hpos with ⟨p, hp, hk, hg⟩
  rcases lookupBalance_some_mem hl with ⟨q, hq, hk2, hb2⟩
  have hpq : p = q := key_unique hwf hp hq (hk.trans hk2.symm)
  rw [hpq, hb2] at hg
  omega

/-- C7 witness: a concrete over-balance Strict transfer fails with
`InsufficientFunds` and leaves the two-account state exactly as it was. -/
theorem claim7_atomic_abort_witness :
    good_transfer exRun "h" "a" "b" 50 = (.error (.InsufficientFunds "a"), exRun) :=
  claim7_atomic_abort.2.2.1 exRun "h" "a" "b" 50 10
    (by decide) (by decide) (by decide) (by decide)

/-! ### Preservation lemmas for the Strict strategy -/

theorem key_not_mem_of_any_false {a : List (String × Int)} {addr : String}
    (h : a.any (fun p => p.1 = addr) = false) : addr ∉ a.map Prod.fst := by
  rw [List.any_eq_false] at h
  intro hmem
  rcases List.mem_map.mp hmem with ⟨p, hp, hk⟩
  exact h p hp (decide_eq_true hk)

theorem WF_upsertCredit {a : List (String × Int)} (hwf : (a.map Prod.fst).Nodup)
    (addr : String) (amt : Int) :
    (((upsertCredit a addr amt).2).map Prod.fst).Nodup := by
  unfold upsertCredit
  by_cases h : a.any (fun p => p.1 = addr) = true
  · rw [if_pos h]
    dsimp only
    rw [map_fst_adjustApply]
    exact hwf
  · rw [if_neg h]
    dsimp only
    rw [List.map_append, List.nodup_append]
    refine ⟨hwf, List.nodup_singleton _, ?_⟩
    rw [List.map_singleton, List.disjoint_singleton]
    exact key_not_mem_of_any_false (Bool.eq_false_iff.mpr h)

theorem WF_good_transfer {s : DBState} (hwf : WF s) (h f t : String) (a : Nat) :
    WF (good_transfer s h f t a).2 := by
  rcases good_transfer_state_cases s h f t a with hs | ⟨_, _, _, _, hc⟩
  · rw [hs]
    exact hwf
  · rw [hc]
    show (((upsertCredit (guardedDebitApply s.accounts f (asI64 a)) t
      (asI64 a)).2).map Prod.fst).Nodup
    apply WF_upsertCredit
    rw [map_fst_guardedDebitApply]
    exact hwf

theorem sum_snd_upsertCredit {a : List (String × Int)} (hwf : (a.map Prod.fst).Nodup)
    (addr : String) (amt : Int) :
    ((upsertCredit a addr amt).2.map Prod.snd).sum = (a.map Prod.snd).sum + amt := by
  unfold upsertCredit
  by_cases h : a.any (fun p => p.1 = addr) = true
  · rw [if_pos h]
    dsimp only
    rw [sum_snd_adjustApply]
    have h1 : 0 < adjustRows a addr := (any_key_iff_pos a addr).mp h
    have h2 : adjustRows a addr ≤ 1 := adjustRows_le_one hwf addr
    have h3 : adjustRows a addr = 1 := le_antisymm h2 h1
    rw [h3]
    push_cast
    ring
  · rw [if_neg h]
    dsimp only
    rw [List.map_append, List.sum_append]
    simp

theorem totalBalance_good_transfer {s : DBState} (hwf : WF s) (h f t : String) (a : Nat) :
    totalBalance (good_transfer s h f t a).2 = totalBalance s := by
  rcases good_transfer_state_cases s h f t a with hs | ⟨_, _, hz, _, hc⟩
  · rw [hs]
  · rw [hc]
    show ((upsertCredit (guardedDebitApply s.accounts f (asI64 a)) t
        (asI64 a)).2.map Prod.snd).sum = totalBalance s
    have hwf2 : ((guardedDebitApply s.accounts f (asI64 a)).map Prod.fst).Nodup := by
      rw [map_fst_guardedDebitApply]
      exact hwf
    rw [sum_snd_upsertCredit hwf2, sum_snd_guardedDebitApply]
    have hle := guardedRows_le_adjustRows s.accounts f (asI64 a)
    have h2 : adjustRows s.accounts f ≤ 1 := adjustRows_le_one hwf f
    have h3 : guardedDebitRows s.accounts f (asI64 a) = 1 := by omega
    rw [h3]
    unfold totalBalance
    push_cast
    ring

theorem WF_runStrict {s : DBState} (hwf : WF s) (reqs : List Req) :
    WF (runStrict s reqs) := by
  induction reqs generalizing s with
  | nil => exact hwf
  | cons r rs ih =>
    unfold runStrict
    exact ih (WF_good_transfer hwf r.tx_hash r.src r.dst r.amount)

/-! ### Non-negativity preservation -/

theorem allNonneg_guardedDebitApply {a : List (String × Int)} {addr : String} {amt : Int}
    (h0 : ∀ p ∈ a, 0 ≤ p.2) : ∀ p ∈ guardedDebitApply a addr amt, 0 ≤ p.2 := by
  intro p hp
  rcases List.mem_map.mp hp with ⟨q, hq, hpq⟩
  rw [← hpq]
  unfold debitRow
  split
  · rename_i hcond
    simp only
    linarith [hcond.2]
  · exact h0 q hq

theorem allNonneg_adjustApply {a : List (String × Int)} {addr : String} {d : Int}
    (hd : 0 ≤ d) (h0 : ∀ p ∈ a, 0 ≤ p.2) : ∀ p ∈ adjustApply a addr d, 0 ≤ p.2 := by
  intro p hp
  rcases List.mem_map.mp hp with ⟨q, hq, hpq⟩
  rw [← hpq]
  unfold adjustRow
  split
  · simp only
    linarith [h0 q hq]
  · exact h0 q hq

theorem allNonneg_upsertCredit {a : List (String × Int)} {addr : String} {amt : Int}
    (hamt : 0 ≤ amt) (h0 : ∀ p ∈ a, 0 ≤ p.2) :
    ∀ p ∈ (upsertCredit a addr amt).2, 0 ≤ p.2 := by
  unfold upsertCredit
  by_cases h : a.any (fun p => p.1 = addr) = true
  · rw [if_pos h]
    exact allNonneg_adjustApply hamt h0
  · rw [if_neg h]
    intro p hp
    rcases List.mem_append.mp hp with hp1 | hp2
    · exact h0 p hp1
    · rw [List.mem_singleton.mp hp2]
      exact hamt

theorem allNonneg_good_transfer {s : DBState} (h f t : String) {a : Nat}
    (ha : a < 2 ^ 63) (h0 : allNonneg s) : allNonneg (good_transfer s h f t a).2 := by
  rcases good_transfer_state_cases s h f t a with hs | ⟨_, _, _, _, hc⟩
  · rw [hs]
    exact h0
  · rw [hc]
    intro p hp
    exact allNonneg_upsertCredit (asI64_nonneg ha)
      (allNonneg_guardedDebitApply h0) p hp

/-! ### Claim C5 -/

/-- C5: invoking the Strict strategy twice with the same (initially fresh)
`tx_hash` yields exactly one balance mutation: when the first invocation
commits, exactly one ledger entry with that hash exists afterwards, and the
second invocation returns the `Skipped` outcome `.ok 0` and leaves every
balance and the ledger exactly as the first invocation left them. -/
theorem claim5_strict_idempotent (s : DBState) (h f t f2 t2 : String)
    (a a2 n : Nat)
    (hx : hashExists s.ledger h = false)
    (hok : (good_transfer s h f t a).1 = .ok n) :
    countHash (good_transfer s h f t a).2.ledger h = 1 ∧
    good_transfer (good_transfer s h f t a).2 h f2 t2 a2
      = (.ok 0, (good_transfer s h f t a).2) := by
  by_cases hof1 : guardedDebitFails s.accounts f (asI64 a) = true
  · rw [good_transfer_debit_overflow s h f t a hx hof1] at hok
    simp at hok
  · have hnof1 := Bool.eq_false_iff.mpr hof1
    by_cases hz : guardedDebitRows s.accounts f (asI64 a) = 0
    · rw [good_transfer_insufficient s h f t a hx hz] at hok
      simp at hok
    · by_cases hof2 : upsertCreditFails (guardedDebitApply s.accounts f (asI64 a)) t
          (asI64 a) = true
      · rw [good_transfer_upsert_overflow s h f t a hx hnof1 hz hof2] at hok
        simp at hok
      · have hc := good_transfer_commit s h f t a hx hnof1 hz
          (Bool.eq_false_iff.mpr hof2)
        have hledg : (good_transfer s h f t a).2.ledger
        = s.ledger ++ [⟨h, f, t, asI64 a⟩] := by
          rw [hc]
        have hcount : countHash (good_transfer s h f t a).2.ledger h = 1 := by
          rw [hledg, countHash_append, countHash_eq_zero hx, if_pos rfl]
        have hx2 : hashExists (good_transfer s h f t a).2.ledger h = true := by
          rw [hledg, hashExists_append]
          simp
        exact ⟨hcount, good_transfer_skip _ h f2 t2 a2 hx2⟩

/-- C5 witness: a committed transfer followed by a duplicate with the same
hash; the duplicate is skipped and changes nothing. -/
theorem claim5_strict_idempotent_witness :
    countHash (good_transfer exRun "h" "a" "b" 3).2.ledger "h" = 1 ∧
    good_transfer (good_transfer exRun "h" "a" "b" 3).2 "h" "a" "b" 3
      = (.ok 0, (good_transfer exRun "h" "a" "b" 3).2) :=
  claim5_strict_idempotent exRun "h" "a" "b" "a" "b" 3 3 1 (by decide) (by decide)

/-! ### Claim C4 -/

/-- C4: for any sequence of Strict transfers over a well-formed account
table (unique addresses), the sum of all account balances afterwards equals
the sum before: committed transfers debit the sender and credit the
recipient by the same value (creating the recipient row if absent), and
skipped or failed transfers change nothing, so total balance is conserved. -/
theorem claim4_strict_conservation (s : DBState) (reqs : List Req) (hwf : WF s) :
    totalBalance (runStrict s reqs) = totalBalance s := by
  induction reqs generalizing s with
  | nil => rfl
  | cons r rs ih =>
    unfold runStrict
    rw [ih _ (WF_good_transfer hwf r.tx_hash r.src r.dst r.amount),
      totalBalance_good_transfer hwf r.tx_hash r.src r.dst r.amount]

/-- C4 witness: a concrete three-transfer Strict run conserving the total. -/
theorem claim4_strict_conservation_witness :
    totalBalance (runStrict exRun
      [⟨"h1", "a", "b", 3⟩, ⟨"h2", "b", "c", 5⟩, ⟨"h1", "a", "b", 3⟩]) = 20 := by
  have h := claim4_strict_conservation exRun
    [⟨"h1", "a", "b", 3⟩, ⟨"h2", "b", "c", 5⟩, ⟨"h1", "a", "b", 3⟩] (by decide)
  rw [h]
  decide

/-! ### Claim C3 -/

/-- C3 counterexample: the claim fails for amounts at or above `2^63`.  On an
all-non-negative state, a Strict transfer of `2^63 + 1` units commits — the
`u64 → i64` cast makes the amount `-(2^63 - 1)`, the guard `balance >= amount`
passes on the zero balance, and both computed balances (`2^63 - 1` for the
sender, `-(2^63 - 1)` for the recipient) stay within the bigint range — and
drives the recipient's balance to `-(2^63 - 1) < 0`. -/
theorem claim3_counterexample :
    allNonneg exC3 ∧
    (good_transfer exC3 "h" "a" "b" (2 ^ 63 + 1)).1 = .ok 1 ∧
    lookupBalance (good_transfer exC3 "h" "a" "b" (2 ^ 63 + 1)).2.accounts "b"
      = some (-(2 ^ 63 - 1)) := by
  decide

/-- C3 (amended): under the Strict strategy, for transfers whose amounts stay
below `2^63` (so the `u64 → i64` cast is value-preserving), starting from a
state where every balance is non-negative, every balance remains `≥ 0` at
every observable point: the debit is guarded by `balance >= amount` in the
same atomic operation and the credit adds a non-negative value. -/
theorem claim3_strict_nonneg (s : DBState) (reqs : List Req)
    (hamt : ∀ r ∈ reqs, r.amount < 2 ^ 63) (h0 : allNonneg s) :
    allNonneg (runStrict s reqs) := by
  induction reqs generalizing s with
  | nil => exact h0
  | cons r rs ih =>
    unfold runStrict
    exact ih _ (fun q hq => hamt q (List.mem_cons_of_mem r hq))
      (allNonneg_good_transfer r.tx_hash r.src r.dst
        (hamt r (List.mem_cons_self r rs)) h0)

/-- C3 witness: a small all-below-`2^63` Strict run keeps balances
non-negative. -/
theorem claim3_strict_nonneg_witness :
    allNonneg (runStrict exRun [⟨"h1", "a", "b", 9⟩, ⟨"h2", "a", "b", 9⟩]) :=
  claim3_strict_nonneg exRun [⟨"h1", "a", "b", 9⟩, ⟨"h2", "a", "b", 9⟩]
    (by decide) (by decide)

/-! ### Lookup through the Strict strategy's updates -/

theorem lookupBalance_append (a : List (String × Int)) (q : String × Int) (addr : String) :
    lookupBalance (a ++ [q]) addr
      = (lookupBalance a addr).or (lookupBalance [q] addr) := by
  unfold lookupBalance
  rw [List.find?_append]
  cases a.find? (fun p => p.1 = addr) <;> simp

theorem lookupBalance_upsertCredit_ne (A : List (String × Int)) (t : String)
    (amt : Int) (f : String) (hft : f ≠ t) :
    lookupBalance ((upsertCredit A t amt).2) f = lookupBalance A f := by
  unfold upsertCredit
  by_cases h : A.any (fun p => p.1 = t) = true
  · rw [if_pos h]
    dsimp only
    unfold adjustApply
    rw [lookupBalance_map A (adjustRow t amt) (adjustRow_fst t amt) f]
    unfold lookupBalance
    cases hf : A.find? (fun p => p.1 = f) with
    | none => rfl
    | some p =>
      have hk := @List.find?_some (String × Int) (fun p => decide (p.1 = f)) p A hf
      have hkf : p.1 = f := of_decide_eq_true hk
      simp only [Option.map_some']
      unfold adjustRow
      rw [if_neg (by rw [hkf]; exact hft)]
  · rw [if_neg h]
    dsimp only
    rw [lookupBalance_append]
    cases hf : lookupBalance A f with
    | none =>
      simp only [Option.none_or]
      unfold lookupBalance
      have hd : decide (((t, amt) : String × Int).1 = f) = false := by
        simp only [decide_eq_false_iff_not]
        exact fun hh => hft hh.symm
      rw [List.find?_cons, hd]
      rfl
    | some b => rfl

theorem lookupBalance_guardedDebit_self {a : List (String × Int)} {f : String} {b : Int}
    (hl : lookupBalance a f = some b) (amt : Int) (hg : amt ≤ b) :
    lookupBalance (guardedDebitApply a f amt) f = some (b - amt) := by
  unfold guardedDebitApply
  rw [lookupBalance_map a (debitRow f amt) (debitRow_fst f amt) f]
  unfold lookupBalance at hl
  rcases Option.map_eq_some'.mp hl with ⟨q, hq, hqb⟩
  have hk := @List.find?_some (String × Int) (fun p => decide (p.1 = f)) q a hq
  have hkf : q.1 = f := of_decide_eq_true hk
  rw [hq]
  simp only [Option.map_some']
  unfold debitRow
  rw [if_pos ⟨hkf, by rw [hqb]; exact hg⟩]
  rw [hqb]

/-! ### Overflow characterizations for the wrap-around claims -/

theorem adjustFails_eq_false_of_unique {A : List (String × Int)}
    (hwf : (A.map Prod.fst).Nodup) {addr : String} {b : Int}
    (hl : lookupBalance A addr = some b) {d : Int} (hin : inI64 (b + d)) :
    adjustFails A addr d = false := by
  unfold adjustFails
  rw [List.any_eq_false]
  intro p hp hc
  have h1 := (Bool.and_eq_true _ _).mp hc
  have hpk : p.1 = addr := of_decide_eq_true h1.1
  rcases lookupBalance_some_mem hl with ⟨q, hq, hqk, hqb⟩
  have hpq : p = q := key_unique hwf hp hq (hpk.trans hqk.symm)
  have hout : decide (inI64 (p.2 + d)) = false := by
    have h2 := h1.2
    rwa [Bool.not_eq_true'] at h2
  apply of_decide_eq_false hout
  rw [hpq, hqb]
  exact hin

theorem guardedDebitFails_eq_false_of_unique {A : List (String × Int)}
    (hwf : (A.map Prod.fst).Nodup) {f : String} {b : Int}
    (hl : lookupBalance A f = some b) {amt : Int} (hin : inI64 (b - amt)) :
    guardedDebitFails A f amt = false := by
  unfold guardedDebitFails
  rw [List.any_eq_false]
  intro p hp hc
  have h1 := (Bool.and_eq_true _ _).mp hc
  have hpk : p.1 = f := (of_decide_eq_true h1.1).1
  rcases lookupBalance_some_mem hl with ⟨q, hq, hqk, hqb⟩
  have hpq : p = q := key_unique hwf hp hq (hpk.trans hqk.symm)
  have hout : decide (inI64 (p.2 - amt)) = false := by
    have h2 := h1.2
    rwa [Bool.not_eq_true'] at h2
  apply of_decide_eq_false hout
  rw [hpq, hqb]
  exact hin

theorem guardedDebitFails_eq_true_of {A : List (String × Int)} {f : String}
    {b : Int} (hl : lookupBalance A f = some b) {amt : Int} (hg : amt ≤ b)
    (hnin : ¬ inI64 (b - amt)) : guardedDebitFails A f amt = true := by
  unfold guardedDebitFails
  rw [List.any_eq_true]
  rcases lookupBalance_some_mem hl with ⟨q, hq, hqk, hqb⟩
  refine ⟨q, hq, ?_⟩
  rw [Bool.and_eq_true]
  refine ⟨decide_eq_true ⟨hqk, by rw [hqb]; exact hg⟩, ?_⟩
  rw [Bool.not_eq_true']
  apply decide_eq_false
  rw [hqb]
  exact hnin

theorem upsertCreditFails_eq_false_of_unique {A : List (String × Int)}
    (hwf : (A.map Prod.fst).Nodup) {t : String} {c : Int}
    (hl : lookupBalance A t = some c) {amt : Int} (hin : inI64 (c + amt)) :
    upsertCreditFails A t amt = false := by
  unfold upsertCreditFails
  have hany : A.any (fun p => p.1 = t) = true :=
    (any_key_iff_pos A t).mpr (adjustRows_pos_of_some hl)
  rw [if_pos hany]
  exact adjustFails_eq_false_of_unique hwf hl hin

theorem lookupBalance_guardedDebit_ne (a : List (String × Int)) (f : String)
    (amt : Int) (t : String) (hft : t ≠ f) :
    lookupBalance (guardedDebitApply a f amt) t = lookupBalance a t := by
  unfold guardedDebitApply
  rw [lookupBalance_map a (debitRow f amt) (debitRow_fst f amt) t]
  unfold lookupBalance
  cases hf : a.find? (fun p => p.1 = t) with
  | none => rfl
  | some p =>
    have hk := @List.find?_some (String × Int) (fun p => decide (p.1 = t)) p a hf
    have hkt : p.1 = t := of_decide_eq_true hk
    simp only [Option.map_some']
    unfold debitRow
    rw [if_neg (fun hc => hft (hkt.symm.trans hc.1))]

/-! ### Claim C10 -/

/-- C10 counterexample: the claim's promised consequences do not hold for
every amount `≥ 2^63`.  At amount `2^63 + 1` from a sender holding 10, the
cast is negative and the guard matches the row, but the debit would compute
`10 + (2^63 - 1) = 2^63 + 9`, outside the bigint column's range: Postgres
raises `bigint out of range`, the invocation aborts with a wrapped store
error, and the state is unchanged — the "debit" does not increase the
sender's balance and no negative amount is recorded in the ledger. -/
theorem claim10_counterexample :
    2 ^ 63 ≤ 2 ^ 63 + 1 ∧
    allNonneg exRun ∧
    good_transfer exRun "h" "a" "b" (2 ^ 63 + 1)
      = (.error (.Sqlx "bigint out of range"), exRun) := by
  decide

/-- C10 (amended): both strategies cast the u64 `amount` to i64 with no
range check.  For any amount in `[2^63, 2^64)` the cast value is negative
and the Strict guard `balance >= amount` matches any non-negative sender
balance; when the wrapped debit and credit results stay within the bigint
column's range the transfer COMMITS, strictly increasing the sender's
balance and recording a negative amount in the ledger, and when the debit
result leaves the range the UPDATE aborts the unit of work with a
`bigint out of range` store error — either way the spec's precondition that
`amount` is a positive integer is nowhere enforced. -/
theorem claim10_cast_wraps (s : DBState) (h f t : String) (a : Nat) (b c : Int)
    (ha1 : 2 ^ 63 ≤ a) (ha2 : a < 2 ^ 64)
    (hwf : WF s) (hx : hashExists s.ledger h = false)
    (hl : lookupBalance s.accounts f = some b) (hb : 0 ≤ b) (hft : f ≠ t)
    (hlt : lookupBalance s.accounts t = some c) :
    asI64 a < 0 ∧
    0 < guardedDebitRows s.accounts f (asI64 a) ∧
    (inI64 (b - asI64 a) → inI64 (c + asI64 a) →
      (good_transfer s h f t a).1 = .ok 1 ∧
      lookupBalance (good_transfer s h f t a).2.accounts f = some (b - asI64 a) ∧
      b < b - asI64 a ∧
      (∃ e ∈ (good_transfer s h f t a).2.ledger, e.tx_hash = h ∧ e.amount < 0)) ∧
    (¬ inI64 (b - asI64 a) →
      good_transfer s h f t a = (.error (.Sqlx "bigint out of range"), s)) := by
  have hneg : asI64 a < 0 := asI64_neg ha1 ha2
  have hg : asI64 a ≤ b := le_of_lt (lt_of_lt_of_le hneg hb)
  have hpos : 0 < guardedDebitRows s.accounts f (asI64 a) := by
    rw [guardedRows_pos_iff]
    rcases lookupBalance_some_mem hl with ⟨p, hp, hk, hpb⟩
    exact ⟨p, hp, hk, by rw [hpb]; exact hg⟩
  refine ⟨hneg, hpos, ?_, ?_⟩
  · intro hin1 hin2
    have hnof1 : guardedDebitFails s.accounts f (asI64 a) = false :=
      guardedDebitFails_eq_false_of_unique hwf hl hin1
    have hle := guardedRows_le_adjustRows s.accounts f (asI64 a)
    have hle1 := adjustRows_le_one hwf f
    have hn1 : guardedDebitRows s.accounts f (asI64 a) = 1 := by omega
    have hwfA : ((guardedDebitApply s.accounts f (asI64 a)).map Prod.fst).Nodup := by
      rw [map_fst_guardedDebitApply]
      exact hwf
    have hltA : lookupBalance (guardedDebitApply s.accounts f (asI64 a)) t = some c := by
      rw [lookupBalance_guardedDebit_ne s.accounts f (asI64 a) t (fun hh => hft hh.symm)]
      exact hlt
    have hnof2 : upsertCreditFails (guardedDebitApply s.accounts f (asI64 a)) t
        (asI64 a) = false := upsertCreditFails_eq_false_of_unique hwfA hltA hin2
    have hc := good_transfer_commit s h f t a hx hnof1 (by omega) hnof2
    refine ⟨?_, ?_, by linarith, ?_⟩
    · rw [hc, hn1]
    · rw [hc]
      show lookupBalance
        ((upsertCredit (guardedDebitApply s.accounts f (asI64 a)) t (asI64 a)).2) f
        = some (b - asI64 a)
      rw [lookupBalance_upsertCredit_ne _ t (asI64 a) f hft]
      exact lookupBalance_guardedDebit_self hl (asI64 a) hg
    · rw [hc]
      refine ⟨⟨h, f, t, asI64 a⟩, ?_, rfl, hneg⟩
      exact List.mem_append_right _ (List.mem_singleton.mpr rfl)
  · intro hnin
    exact good_transfer_debit_overflow s h f t a hx
      (guardedDebitFails_eq_true_of hl hg hnin)

/-- C10 witness: on the all-zero state a wrap-around transfer of `2^63 + 5`
commits (its wrapped results stay in the bigint range), leaving the sender
increased to `0 - asI64 (2^63 + 5) = 2^63 - 5`; and from balance 10 on
`exRun`, amount `2^63 + 1` overflows the debit and aborts with the store
error. -/
theorem claim10_cast_wraps_witness :
    asI64 (2 ^ 63 + 5) < 0 ∧
    (good_transfer exC3 "h" "a" "b" (2 ^ 63 + 5)).1 = .ok 1 ∧
    lookupBalance (good_transfer exC3 "h" "a" "b" (2 ^ 63 + 5)).2.accounts "a"
      = some (0 - asI64 (2 ^ 63 + 5)) ∧
    good_transfer exRun "h2" "a" "b" (2 ^ 63 + 1)
      = (.error (.Sqlx "bigint out of range"), exRun) := by
  have h1 := claim10_cast_wraps exC3 "h" "a" "b" (2 ^ 63 + 5) 0 0 (by norm_num)
    (by norm_num) (by decide) (by decide) (by decide) (by decide) (by decide) (by decide)
  have h2 := claim10_cast_wraps exRun "h2" "a" "b" (2 ^ 63 + 1) 10 10 (by norm_num)
    (by norm_num) (by decide) (by decide) (by decide) (by decide) (by decide) (by decide)
  rcases h1 with ⟨hn, _, hcom, _⟩
  rcases hcom (by decide) (by decide) with ⟨hok, hlook, _, _⟩
  exact ⟨hn, hok, hlook, h2.2.2.2 (by decide)⟩

/-! ### Aggregate equality of the verifier and the spec formula -/

theorem specDiscrepancy_eq_zero {s : DBState} {initial : Nat}
    (hinv : balancedAgainst s initial) : specDiscrepancy s initial = 0 := by
  unfold specDiscrepancy
  have hz : ∀ p ∈ s.accounts,
      p.2 - ((initial : Int) + receivedBy s.ledger p.1 - sentBy s.ledger p.1) = 0 := by
    intro p hp
    rw [hinv p hp]
    ring
  rw [List.map_congr_left hz]
  exact List.sum_eq_zero (fun x hx => by
    rcases List.mem_map.mp hx with ⟨p, _, hpx⟩
    exact hpx.symm)

theorem sum_receivedBy_closed {s : DBState} (hwf : WF s) (hcl : closedLedger s) :
    (s.accounts.map (fun p => receivedBy s.ledger p.1)).sum
      = (s.ledger.map (fun e => e.amount)).sum := by
  rw [sum_receivedBy_over_accounts]
  apply congrArg List.sum
  apply List.map_congr_left
  intro e he
  have h1 : 0 < adjustRows s.accounts e.to_address :=
    (any_key_iff_pos _ _).mp (hcl e he).2
  have h2 : adjustRows s.accounts e.to_address ≤ 1 := adjustRows_le_one hwf _
  have h3 : adjustRows s.accounts e.to_address = 1 := le_antisymm h2 h1
  rw [h3]
  push_cast
  ring

theorem sum_sentBy_closed {s : DBState} (hwf : WF s) (hcl : closedLedger s) :
    (s.accounts.map (fun p => sentBy s.ledger p.1)).sum
      = (s.ledger.map (fun e => e.amount)).sum := by
  rw [sum_sentBy_over_accounts]
  apply congrArg List.sum
  apply List.map_congr_left
  intro e he
  have h1 : 0 < adjustRows s.accounts e.from_address :=
    (any_key_iff_pos _ _).mp (hcl e he).1
  have h2 : adjustRows s.accounts e.from_address ≤ 1 := adjustRows_le_one hwf _
  have h3 : adjustRows s.accounts e.from_address = 1 := le_antisymm h2 h1
  rw [h3]
  push_cast
  ring

theorem verify_eq_spec_of_closed {s : DBState} (hwf : WF s) (hcl : closedLedger s)
    (initial : Nat) :
    ledger_consistency_verify s initial = specDiscrepancy s initial := by
  rw [verify_eq_sum s initial,
    sum_code_spec_diff s.accounts ((initial : Int))
      (fun addr => sentBy s.ledger addr) (fun addr => receivedBy s.ledger addr)]
  unfold specDiscrepancy
  rw [sum_receivedBy_closed hwf hcl, sum_sentBy_closed hwf hcl]
  ring

/-! ### The Strict run invariant -/

theorem any_map_general {α β : Type} (f : α → β) (l : List α) (q : β → Bool) :
    (l.map f).any q = l.any (fun x => q (f x)) := by
  induction l with
  | nil => rfl
  | cons x l ih => simp [List.any_cons, ih]

theorem any_key_of_map_fst_eq {A B : List (String × Int)}
    (hkeys : A.map Prod.fst = B.map Prod.fst) (x : String) :
    A.any (fun p => p.1 = x) = B.any (fun p => p.1 = x) := by
  have hgen : ∀ (L : List (String × Int)),
      L.any (fun p => p.1 = x) = (L.map Prod.fst).any (fun k => k = x) := by
    intro L
    rw [any_map_general]
  rw [hgen A, hgen B, hkeys]

theorem row_value_after (p : String × Int) (f t : String) (amt : Int)
    (hguard : p.1 = f → amt ≤ p.2) :
    (adjustRow t amt (debitRow f amt p)).2
      = p.2 - (if f = p.1 then amt else 0) + (if t = p.1 then amt else 0) := by
  unfold debitRow
  by_cases hpf : p.1 = f
  · rw [if_pos (And.intro hpf (hguard hpf))]
    unfold adjustRow
    by_cases hpt : p.1 = t
    · rw [if_pos (show ((p.1, p.2 - amt) : String × Int).1 = t from hpt)]
      rw [if_pos hpf.symm, if_pos hpt.symm]
    · rw [if_neg (show ¬ ((p.1, p.2 - amt) : String × Int).1 = t from hpt)]
      rw [if_pos hpf.symm, if_neg (fun hh => hpt hh.symm)]
      try (dsimp only; ring)
  · rw [if_neg (fun hc => hpf hc.1)]
    unfold adjustRow
    by_cases hpt : p.1 = t
    · rw [if_pos hpt, if_neg (fun hh => hpf hh.symm), if_pos hpt.symm]
      try (dsimp only; ring)
    · rw [if_neg hpt, if_neg (fun hh => hpf hh.symm), if_neg (fun hh => hpt hh.symm)]
      try ring

theorem strict_step_preserves (s : DBState) (initial : Nat) (h f t : String) (a : Nat)
    (hwf : WF s) (hcl : closedLedger s) (hinv : balancedAgainst s initial)
    (hdst : s.accounts.any (fun p => p.1 = t) = true) :
    WF (good_transfer s h f t a).2 ∧
    closedLedger (good_transfer s h f t a).2 ∧
    balancedAgainst (good_transfer s h f t a).2 initial ∧
    (good_transfer s h f t a).2.accounts.map Prod.fst = s.accounts.map Prod.fst := by
  rcases good_transfer_state_cases s h f t a with hs | ⟨hx2, hof1f, hz, hof2f, hc⟩
  · rw [hs]
    exact ⟨hwf, hcl, hinv, rfl⟩
  · rw [hc]
    have hAkeys : (guardedDebitApply s.accounts f (asI64 a)).map Prod.fst
        = s.accounts.map Prod.fst := map_fst_guardedDebitApply _ _ _
    have hanyA : (guardedDebitApply s.accounts f (asI64 a)).any
        (fun p => p.1 = t) = true := by
      rw [any_key_of_map_fst_eq hAkeys]
      exact hdst
    have hup : (upsertCredit (guardedDebitApply s.accounts f (asI64 a)) t
        (asI64 a)).2 = adjustApply (guardedDebitApply s.accounts f (asI64 a)) t
        (asI64 a) := by
      unfold upsertCredit
      rw [if_pos hanyA]
    have hkeys : ((upsertCredit (guardedDebitApply s.accounts f (asI64 a)) t
        (asI64 a)).2).map Prod.fst = s.accounts.map Prod.fst := by
      rw [hup, map_fst_adjustApply, hAkeys]
    refine ⟨?_, ?_, ?_, hkeys⟩
    · show (((upsertCredit (guardedDebitApply s.accounts f (asI64 a)) t
        (asI64 a)).2).map Prod.fst).Nodup
      rw [hkeys]
      exact hwf
    · -- closedLedger
      intro e he
      rcases List.mem_append.mp he with he1 | he2
      · rcases hcl e he1 with ⟨hcf, hct⟩
        rw [any_key_of_map_fst_eq hkeys, any_key_of_map_fst_eq hkeys]
        exact ⟨hcf, hct⟩
      · rw [List.mem_singleton.mp he2]
        constructor
        · rw [any_key_of_map_fst_eq hkeys]
          rcases (guardedRows_pos_iff s.accounts f (asI64 a)).mp
            (Nat.pos_of_ne_zero hz) with ⟨p, hp, hk, _⟩
          rw [List.any_eq_true]
          exact ⟨p, hp, decide_eq_true hk⟩
        · rw [any_key_of_map_fst_eq hkeys]
          exact hdst
    · -- balancedAgainst
      intro p' hp'
      rw [hup] at hp'
      rcases List.mem_map.mp hp' with ⟨q, hq, hq'⟩
      rcases List.mem_map.mp hq with ⟨p, hp, hpq⟩
      have hguard : p.1 = f → asI64 a ≤ p.2 := by
        intro hpf
        rcases (guardedRows_pos_iff s.accounts f (asI64 a)).mp
          (Nat.pos_of_ne_zero hz) with ⟨q0, hq0, hk0, hg0⟩
        have hpq0 : p = q0 := key_unique hwf hp hq0 (by rw [hpf, hk0])
        rw [hpq0]
        exact hg0
      have hbal := hinv p hp
      rw [← hq', ← hpq]
      have hfst : (adjustRow t (asI64 a) (debitRow f (asI64 a) p)).1 = p.1 := by
        rw [adjustRow_fst, debitRow_fst]
      rw [hfst, receivedBy_append, sentBy_append]
      show (adjustRow t (asI64 a) (debitRow f (asI64 a) p)).2
        = (initial : Int)
          + (receivedBy s.ledger p.1 + (if t = p.1 then asI64 a else 0))
          - (sentBy s.ledger p.1 + (if f = p.1 then asI64 a else 0))
      rw [row_value_after p f t (asI64 a) hguard, hbal]
      ring

theorem runStrict_invariant (s : DBState) (initial : Nat) (reqs : List Req)
    (hwf : WF s) (hcl : closedLedger s) (hinv : balancedAgainst s initial)
    (hdst : ∀ r ∈ reqs, s.accounts.any (fun p => p.1 = r.dst) = true) :
    WF (runStrict s reqs) ∧ closedLedger (runStrict s reqs) ∧
    balancedAgainst (runStrict s reqs) initial ∧
    (runStrict s reqs).accounts.map Prod.fst = s.accounts.map Prod.fst := by
  induction reqs generalizing s with
  | nil => exact ⟨hwf, hcl, hinv, rfl⟩
  | cons r rs ih =>
    unfold runStrict
    rcases strict_step_preserves s initial r.tx_hash r.src r.dst r.amount
      hwf hcl hinv (hdst r (List.mem_cons_self r rs)) with ⟨hwf1, hcl1, hinv1, hkeys1⟩
    rcases ih _ hwf1 hcl1 hinv1
      (fun q hq => by
        rw [any_key_of_map_fst_eq hkeys1]
        exact hdst q (List.mem_cons_of_mem r hq)) with ⟨w1, w2, w3, w4⟩
    exact ⟨w1, w2, w3, w4.trans hkeys1⟩

/-! ### Claim C1 -/

/-- C1 counterexample: `ledger_consistency_verify` does NOT return the sum of
`balance - (initialFunding + credit - debit)` with `credit` summed over
entries whose `to_address` is the account and `debit` over those whose
`from_address` is it (that formula is `specDiscrepancy`): on `exC1` — one
account `"a"` with balance 5 and one ledger entry paying 5 to `"a"` from an
address with no account row — the claimed formula gives 0 while the code
returns 10, because the SQL aliases `credit`/`debit` the other way around. -/
theorem claim1_counterexample :
    specDiscrepancy exC1 0 = 0 ∧
    ledger_consistency_verify exC1 0 = 10 ∧
    ledger_consistency_verify exC1 0 ≠ specDiscrepancy exC1 0 := by
  decide

/-- C1 (amended): `ledger_consistency_verify` returns the sum over all
accounts of `balance - (initialFunding + credit - debit)` where — as the SQL
aliases them, SWAPPED relative to the spec — `credit` sums the entries whose
FROM address is the account and `debit` those whose TO address is it.  When
every ledger entry references existing account rows (true of every state the
program reaches) the swap cancels in the aggregate, so the returned total
equals the spec's formula; and after a Strict-only run from a seeded state
whose transfers target existing accounts, the spec's per-account equality
`balance = initial + credit - debit` holds exactly and the returned
discrepancy is zero. -/
theorem claim1_verifier (s : DBState) (initial : Nat) (reqs : List Req) :
    (ledger_consistency_verify s initial
      = (s.accounts.map (fun p =>
          p.2 - ((initial : Int) + sentBy s.ledger p.1 - receivedBy s.ledger p.1))).sum) ∧
    (WF s → closedLedger s →
      ledger_consistency_verify s initial = specDiscrepancy s initial) ∧
    (WF s → seeded s initial →
      (∀ r ∈ reqs, s.accounts.any (fun p => p.1 = r.dst) = true) →
      balancedAgainst (runStrict s reqs) initial ∧
      ledger_consistency_verify (runStrict s reqs) initial = 0) := by
  refine ⟨verify_eq_sum s initial,
    fun hwf hcl => verify_eq_spec_of_closed hwf hcl initial, ?_⟩
  intro hwf hseed hdst
  have hcl : closedLedger s := by
    intro e he
    rw [hseed.1] at he
    cases he
  have hinv : balancedAgainst s initial := by
    intro p hp
    rw [hseed.1, receivedBy_nil, sentBy_nil, hseed.2 p hp]
    ring
  rcases runStrict_invariant s initial reqs hwf hcl hinv hdst with ⟨hwf2, hcl2, hinv2, _⟩
  exact ⟨hinv2, by
    rw [verify_eq_spec_of_closed hwf2 hcl2 initial, specDiscrepancy_eq_zero hinv2]⟩

/-- C1 witness: a seeded two-account Strict run reconciles to zero. -/
theorem claim1_verifier_witness :
    balancedAgainst (runStrict exRun [⟨"h1", "a", "b", 3⟩, ⟨"h2", "b", "a", 7⟩]) 10 ∧
    ledger_consistency_verify
      (runStrict exRun [⟨"h1", "a", "b", 3⟩, ⟨"h2", "b", "a", 7⟩]) 10 = 0 :=
  (claim1_verifier exRun 10 [⟨"h1", "a", "b", 3⟩, ⟨"h2", "b", "a", 7⟩]).2.2
    (by decide) (by decide) (by decide)

end LockTx
